import Mathlib

set_option maxHeartbeats 1000000

namespace DynamicFormBuilder

/-! Shallow embedding of the dynamic-form-builder engine:
the schema data model (`src/app/models/form-schema.model.ts`),
the authoring store (`src/app/services/form-schema.store.ts`),
the runtime compiler (`src/app/services/form-runtime.service.ts`),
and the visibility evaluator (`src/app/pages/preview/preview.component.ts`,
bundled in the preview/renderer source).

JavaScript numbers are modelled as integers (no property below depends on
fractional values), and `structuredClone` is the identity on pure values. -/

/-- Primitive value that may appear as a condition's comparison value or a
control's default (`string | number | boolean` in the TS model). -/
inductive Prim where
  | str (s : String)
  | num (n : Int)
  | bool (b : Bool)
deriving DecidableEq, Repr

/-- Runtime JavaScript value as seen by the visibility evaluator: the form
value snapshot is a nested object of primitive leaves; `undefined` stands for
JavaScript `undefined`. -/
inductive JsValue where
  | undefined
  | null
  | bool (b : Bool)
  | num (n : Int)
  | str (s : String)
  | arr (elems : List JsValue)
  | obj (fields : List (String × JsValue))

/-- Decide whether the second character list occurs at the head of the first. -/
def leadsWith : List Char → List Char → Bool
  | _, [] => true
  | [], _ :: _ => false
  | a :: as, b :: bs => a == b && leadsWith as bs

/-- JavaScript `String.prototype.includes`: substring containment. -/
def strIncludes (s target : String) : Bool :=
  (List.range (s.toList.length + 1)).any fun i => leadsWith (s.toList.drop i) target.toList

/-- JavaScript `String(x)` on a primitive. -/
def Prim.jsString : Prim → String
  | .str s => s
  | .num n => toString n
  | .bool b => if b then "true" else "false"

/-- Embed a primitive into the runtime value universe. -/
def Prim.toJsValue : Prim → JsValue
  | .str s => .str s
  | .num n => .num n
  | .bool b => .bool b

/-- JavaScript strict equality `===` between a runtime value and a primitive
(arrays and objects are compared by reference, hence never equal to a fresh
primitive). -/
def strictEqPrim : JsValue → Prim → Bool
  | .str s, .str t => s == t
  | .num a, .num b => a == b
  | .bool a, .bool b => a == b
  | _, _ => false

/-- Condition operator (`VisibilityOperator` in the TS model; the evaluator's
`switch` additionally handles `contains` and `isChecked` and treats any other
string as unknown, falling into the `default` branch). -/
inductive VisibilityOperator where
  | equals
  | notEquals
  | greaterThan
  | lessThan
  | includes
  | contains
  | isChecked
  | unknownOp (s : String)
deriving DecidableEq, Repr

/-- Visibility condition `{fieldKey, operator, value}`. -/
structure VisibilityCondition where
  fieldKey : String
  operator : VisibilityOperator
  value : Prim
deriving DecidableEq, Repr

/-- Combination mode of a visibility rule. -/
inductive VisibilityMode where
  | all
  | any
deriving DecidableEq, Repr

/-- Visibility rule `{mode, conditions}`. -/
structure FieldVisibilityRule where
  mode : VisibilityMode
  conditions : List VisibilityCondition
deriving DecidableEq, Repr

/-- Control type discriminant. -/
inductive FieldControlType where
  | text
  | email
  | number
  | textarea
  | select
  | checkbox
  | radio
  | date
deriving DecidableEq, Repr

/-- Option of a select/radio control. -/
structure FieldOption where
  label : String
  value : Prim
deriving DecidableEq, Repr

/-- Per-control validator record; a `some` field corresponds to a field whose
TS `typeof` is `number` (resp. `string` for `pattern`). -/
structure FieldValidators where
  min : Option Int
  max : Option Int
  minLength : Option Int
  maxLength : Option Int
  pattern : Option String
deriving DecidableEq, Repr

/-- Leaf control of the schema tree. `defaultValue`'s outer `Option` is
JS `undefined` (property absent) and the inner one JS `null`;
`visibleByDefault` is read by the evaluator and written by the builder
inspector even though the model interface omits it. -/
structure FieldControl where
  id : String
  type : FieldControlType
  key : String
  label : String
  placeholder : Option String
  defaultValue : Option (Option Prim)
  required : Option Bool
  validators : Option FieldValidators
  options : Option (List FieldOption)
  visibleByDefault : Option Bool
  visibility : Option FieldVisibilityRule
deriving DecidableEq, Repr

/-- Schema tree node: a group (with ordered children) or a control. -/
inductive FieldNode where
  | group (id : String) (label : String) (children : List FieldNode)
  | control (c : FieldControl)

/-- Group record as the TS `FieldGroup` interface. -/
structure FieldGroup where
  id : String
  label : String
  children : List FieldNode

/-- View a group as a node. -/
def FieldGroup.toNode (g : FieldGroup) : FieldNode :=
  .group g.id g.label g.children

/-- Identifier of a node. -/
def FieldNode.nodeId : FieldNode → String
  | .group i _ _ => i
  | .control c => c.id

/-- Root aggregate `FormSchema`. -/
structure FormSchema where
  id : String
  name : String
  version : String
  root : FieldGroup

/-- In this value-level model `structuredClone`, which returns a value-equal
independent copy, is the identity. -/
def deepClone (x : α) : α := x

mutual

/-- Form-value lookup `readFormValue` of the preview component: on an object,
an own property wins, otherwise the object-like child values are searched
depth-first in order; arrays expose their `length` and canonical index
properties the way JS own-property lookup does; primitives and `null` yield
`undefined`. -/
def readFormValue (value : JsValue) (key : String) : JsValue :=
  match value with
  | .obj fields =>
      match List.lookup key fields with
      | some v => v
      | none => searchFields fields key
  | .arr elems =>
      if key == "length" then .num elems.length
      else
        match key.toNat? with
        | some i =>
            if toString i == key then
              match elems[i]? with
              | some v => v
              | none => searchElems elems key
            else searchElems elems key
        | none => searchElems elems key
  | _ => .undefined

/-- Search the values of an object's fields for the key, first hit wins. -/
def searchFields (fields : List (String × JsValue)) (key : String) : JsValue :=
  match fields with
  | [] => .undefined
  | (_, v) :: rest =>
      match v with
      | .obj fs =>
          match readFormValue (.obj fs) key with
          | .undefined => searchFields rest key
          | found => found
      | .arr es =>
          match readFormValue (.arr es) key with
          | .undefined => searchFields rest key
          | found => found
      | _ => searchFields rest key

/-- Search the elements of an array for the key, first hit wins. -/
def searchElems (elems : List JsValue) (key : String) : JsValue :=
  match elems with
  | [] => .undefined
  | v :: rest =>
      match v with
      | .obj fs =>
          match readFormValue (.obj fs) key with
          | .undefined => searchElems rest key
          | found => found
      | .arr es =>
          match readFormValue (.arr es) key with
          | .undefined => searchElems rest key
          | found => found
      | _ => searchElems rest key

end

/-- Condition evaluation `evaluateCondition` of the preview component. -/
def evaluateCondition (condition : VisibilityCondition) (formValue : JsValue) : Bool :=
  let actualValue := readFormValue formValue condition.fieldKey
  let expected := condition.value
  match condition.operator with
  | .equals => strictEqPrim actualValue expected
  | .notEquals => !(strictEqPrim actualValue expected)
  | .greaterThan =>
      match actualValue, expected with
      | .num a, .num b => decide (b < a)
      | _, _ => false
  | .lessThan =>
      match actualValue, expected with
      | .num a, .num b => decide (a < b)
      | _, _ => false
  | .includes | .contains =>
      match actualValue with
      | .str s => strIncludes s expected.jsString
      | .arr xs => xs.any fun x => strictEqPrim x expected
      | _ => false
  | .isChecked =>
      match actualValue with
      | .bool true => true
      | _ => false
  | .unknownOp _ => false

mutual

/-- Identifiers of a node and all of its descendants, in depth-first order. -/
def allIdsNode : FieldNode → List String
  | .group i _ cs => i :: allIdsChildren cs
  | .control c => [c.id]

/-- Identifiers of all nodes of a forest, in depth-first order. -/
def allIdsChildren : List FieldNode → List String
  | [] => []
  | n :: rest => allIdsNode n ++ allIdsChildren rest

end

/-- Identifiers of a group and all of its descendants. -/
def allIdsG (g : FieldGroup) : List String :=
  g.id :: allIdsChildren g.children

/-- Identifiers of the strict descendants of a group. -/
def descIds (g : FieldGroup) : List String :=
  allIdsChildren g.children

mutual

/-- Identifiers of the groups of a subtree (including the subtree's root when
it is a group). -/
def groupIdsNode : FieldNode → List String
  | .group i _ cs => i :: groupIdsChildren cs
  | .control _ => []

/-- Identifiers of the groups of a forest. -/
def groupIdsChildren : List FieldNode → List String
  | [] => []
  | n :: rest => groupIdsNode n ++ groupIdsChildren rest

end

/-- Identifiers of the groups of a group tree. -/
def groupIdsG (g : FieldGroup) : List String :=
  g.id :: groupIdsChildren g.children

mutual

/-- Recursive node search `findNode` of the store: the node itself first, then
its children in order. -/
def findNode (node : FieldNode) (nodeId : String) : Option FieldNode :=
  if node.nodeId = nodeId then some node
  else
    match node with
    | .group _ _ children => findNodeInChildren children nodeId
    | .control _ => none

/-- Search a forest for a node id, first hit wins. -/
def findNodeInChildren (children : List FieldNode) (nodeId : String) : Option FieldNode :=
  match children with
  | [] => none
  | child :: rest =>
      match findNode child nodeId with
      | some found => some found
      | none => findNodeInChildren rest nodeId

end

mutual

/-- Recursive patch `patchNode` of the store: the matched node is replaced by
`merge node` (modelling the TS shallow spread `\x7b...node, ...patch\x7d`); a
matched node's own subtree is not searched further, every other group is
rebuilt around its patched children. -/
def patchNode (node : FieldNode) (nodeId : String) (merge : FieldNode → FieldNode) : FieldNode :=
  if node.nodeId = nodeId then merge node
  else
    match node with
    | .group i l children => .group i l (patchChildren children nodeId merge)
    | .control c => .control c

/-- Patch every matching node of a forest. -/
def patchChildren (children : List FieldNode) (nodeId : String) (merge : FieldNode → FieldNode) : List FieldNode :=
  match children with
  | [] => []
  | child :: rest => patchNode child nodeId merge :: patchChildren rest nodeId merge

end

/-- Result record of `removeNodeFromGroup`. -/
structure RemoveResult where
  group : FieldGroup
  removedNode : Option FieldNode
  removed : Bool

mutual

/-- Loop body of `removeNodeFromGroup` over a forest: a child whose id matches
is dropped (and remembered, later matches overwriting earlier ones), group
children are searched recursively, everything else is kept in order. -/
def removeFromChildren (nodeId : String) (children : List FieldNode) : List FieldNode × Option FieldNode × Bool :=
  match children with
  | [] => ([], none, false)
  | child :: rest =>
      let head := removeFromChild nodeId child
      let tail := removeFromChildren nodeId rest
      (head.1 ++ tail.1,
       match tail.2.1 with
       | some n => some n
       | none => head.2.1,
       head.2.2 || tail.2.2)

/-- Removal outcome for a single child: the list of nodes it contributes to
the rebuilt children, the removed node if any, and the removal flag. -/
def removeFromChild (nodeId : String) (child : FieldNode) : List FieldNode × Option FieldNode × Bool :=
  match child with
  | .control c =>
      if c.id = nodeId then ([], some (.control c), true)
      else ([.control c], none, false)
  | .group i l cs =>
      if i = nodeId then ([], some (.group i l cs), true)
      else
        let r := removeFromChildren nodeId cs
        if r.2.2 then ([.group i l r.1], r.2.1, true)
        else ([.group i l cs], none, false)

end

/-- Removal `removeNodeFromGroup` of the store: rebuilds the group without any
child subtree rooted at `nodeId`; when nothing was removed the original group
is returned unchanged. -/
def removeNodeFromGroup (group : FieldGroup) (nodeId : String) : RemoveResult :=
  let r := removeFromChildren nodeId group.children
  if r.2.2 then ⟨⟨group.id, group.label, r.1⟩, r.2.1, true⟩
  else ⟨group, none, false⟩

/-- JS `children.splice(insertIndex, 0, node)` after the clamp
`Math.max(0, Math.min(index ?? children.length, children.length))`;
the TS `index` is a raw JS number, hence modelled as an integer. -/
def spliceInsert (children : List FieldNode) (index : Option Int) (node : FieldNode) : List FieldNode :=
  let len : Int := children.length
  let insertIndex := (max 0 (min (index.getD len) len)).toNat
  children.take insertIndex ++ [node] ++ children.drop insertIndex

mutual

/-- Insertion `insertIntoGroup` of the store, phrased on nodes: a group whose
id matches receives a deep clone of `node` at the clamped index; otherwise the
group children are searched recursively and the group is rebuilt only when an
insertion happened below it. Controls are untouched. -/
def insertIntoNode (parentGroupId : String) (node : FieldNode) (index : Option Int) : FieldNode → FieldNode × Bool
  | .control c => (.control c, false)
  | .group i l children =>
      if i = parentGroupId then
        (.group i l (spliceInsert children index (deepClone node)), true)
      else
        let r := insertIntoChildren parentGroupId node index children
        if r.2 then (.group i l r.1, true) else (.group i l children, false)

/-- Loop body of `insertIntoGroup` over a forest. -/
def insertIntoChildren (parentGroupId : String) (node : FieldNode) (index : Option Int) : List FieldNode → List FieldNode × Bool
  | [] => ([], false)
  | child :: rest =>
      let head := insertIntoNode parentGroupId node index child
      let tail := insertIntoChildren parentGroupId node index rest
      (head.1 :: tail.1, head.2 || tail.2)

end

/-- Result record of `insertIntoGroup`. -/
structure InsertResult where
  group : FieldGroup
  added : Bool

/-- Insertion `insertIntoGroup` of the store on a group value. -/
def insertIntoGroup (group : FieldGroup) (parentGroupId : String) (node : FieldNode) (index : Option Int) : InsertResult :=
  match insertIntoNode parentGroupId node index group.toNode with
  | (.group i l cs, added) => ⟨⟨i, l, cs⟩, added⟩
  | (.control _, added) => ⟨group, added⟩

/-- Store state held by the `BehaviorSubject`. -/
structure FormSchemaState where
  currentSchema : Option FormSchema
  selectedNodeId : Option String
  lastUpdated : Nat

/-- Private helper `updateSchema` of the store: with no schema it returns
without publishing; otherwise it publishes the mutated deep clone with
`lastUpdated` refreshed to the ambient clock (`Date.now()`, passed in as
`now`). The boolean records whether `state$.next` was called. -/
def updateSchema (st : FormSchemaState) (mutator : FormSchema → FormSchema) (now : Nat) : FormSchemaState × Bool :=
  match st.currentSchema with
  | none => (st, false)
  | some currentSchema =>
      ({ st with currentSchema := some (mutator (deepClone currentSchema)), lastUpdated := now }, true)

/-- Command `updateNode` of the store: patches the node with the given id via
the shallow-merge function and republishes. The TS `as FieldGroup` cast of the
patched root is modelled by reading the result back as a group. -/
def updateNode (st : FormSchemaState) (nodeId : String) (merge : FieldNode → FieldNode) (now : Nat) : FormSchemaState × Bool :=
  updateSchema st
    (fun schema =>
      match patchNode schema.root.toNode nodeId merge with
      | .group i l cs => { schema with root := ⟨i, l, cs⟩ }
      | .control _ => schema)
    now

/-- Command `addNode` of the store. -/
def addNode (st : FormSchemaState) (parentGroupId : String) (node : FieldNode) (index : Option Int) (now : Nat) : FormSchemaState × Bool :=
  updateSchema st
    (fun schema =>
      let r := insertIntoGroup schema.root parentGroupId node index
      if r.added then { schema with root := r.group } else schema)
    now

/-- Command `removeNode` of the store: publishes only when a node was actually
removed, clearing the selection when the removed id was selected. -/
def removeNode (st : FormSchemaState) (nodeId : String) (now : Nat) : FormSchemaState × Bool :=
  match st.currentSchema with
  | none => (st, false)
  | some currentSchema =>
      let r := removeNodeFromGroup (deepClone currentSchema.root) nodeId
      if r.removed = false then (st, false)
      else
        ({ currentSchema := some { currentSchema with root := r.group },
           selectedNodeId := if st.selectedNodeId = some nodeId then none else st.selectedNodeId,
           lastUpdated := now }, true)

/-- Mutator body of `moveNode`: remove, then insert the removed node into the
target group; if either half fails the (cloned) schema is returned unchanged. -/
def moveNodeSchema (schema : FormSchema) (dragId targetGroupId : String) (index : Int) : FormSchema :=
  let r := removeNodeFromGroup schema.root dragId
  if r.removed = false then schema
  else
    match r.removedNode with
    | none => schema
    | some removedNode =>
        let i := insertIntoGroup r.group targetGroupId removedNode (some index)
        if i.added then { schema with root := i.group } else schema

/-- Command `moveNode` of the store. -/
def moveNode (st : FormSchemaState) (dragId targetGroupId : String) (index : Int) (now : Nat) : FormSchemaState × Bool :=
  updateSchema st (fun schema => moveNodeSchema schema dragId targetGroupId index) now

/-- Command `selectNode` of the store: ignored without a schema or when a
non-null id does not resolve; otherwise republishes with the new selection
(without touching `lastUpdated`). -/
def selectNode (st : FormSchemaState) (nodeId : Option String) : FormSchemaState × Bool :=
  match st.currentSchema with
  | none => (st, false)
  | some currentSchema =>
      match nodeId with
      | some nid =>
          match findNode currentSchema.root.toNode nid with
          | none => (st, false)
          | some _ => ({ st with selectedNodeId := some nid }, true)
      | none => ({ st with selectedNodeId := none }, true)

/-- Command `loadDefaultSchema` of the store: replaces the state with the
canonical starter schema (fresh ids passed in for `generateId`'s random
output) and selects the root. -/
def loadDefaultSchema (formId groupId nameId emailId : String) (now : Nat) : FormSchemaState × Bool :=
  let root : FieldGroup :=
    ⟨groupId, "Root Group",
      [.control ⟨nameId, .text, "name", "Full Name", some "Enter your name", none, some true, none, none, none, none⟩,
       .control ⟨emailId, .email, "email", "Email Address", some "Enter your email", none, some true, none, none, none, none⟩]⟩
  ({ currentSchema := some ⟨formId, "Contact Form", "1.0.0", root⟩,
     selectedNodeId := some groupId,
     lastUpdated := now }, true)

/-- Abstract Angular validator attached to a control by the runtime compiler. -/
inductive Validator where
  | required
  | requiredTrue
  | email
  | min (n : Int)
  | max (n : Int)
  | minLength (n : Int)
  | maxLength (n : Int)
  | pattern (p : String)
deriving DecidableEq, Repr

/-- Validator list `buildValidators` of the runtime compiler. -/
def buildValidators (field : FieldControl) : List Validator :=
  let validators : List Validator :=
    (if field.required = some true then
       [if field.type = .checkbox then Validator.requiredTrue else Validator.required]
     else []) ++
    (if field.type = .email then [Validator.email] else [])
  match field.validators with
  | none => validators
  | some rules =>
      validators ++
      (match rules.min with | some n => [Validator.min n] | none => []) ++
      (match rules.max with | some n => [Validator.max n] | none => []) ++
      (match rules.minLength with | some n => [Validator.minLength n] | none => []) ++
      (match rules.maxLength with | some n => [Validator.maxLength n] | none => []) ++
      (match rules.pattern with
       | some p => if p.trim ≠ "" then [Validator.pattern p] else []
       | none => [])

/-- Seed value of a control: `field.defaultValue ?? (checkbox ? false : null)`;
the JS `??` falls through on both an absent and an explicitly null default. -/
def initialValue (field : FieldControl) : JsValue :=
  match field.defaultValue with
  | some (some p) => p.toJsValue
  | _ => if field.type = .checkbox then .bool false else .null

/-- Live value-holder tree produced by the runtime compiler: a `FormGroup`
keyed by entry names, or a `FormControl` with its seed value and validators. -/
inductive ValueNode where
  | group (entries : List (String × ValueNode))
  | control (value : JsValue) (validators : List Validator)

/-- JS record assignment `record[k] = v`: an existing property keeps its
position and is overwritten, a new one is appended. -/
def recordSet (entries : List (String × ValueNode)) (k : String) (v : ValueNode) : List (String × ValueNode) :=
  if entries.any (fun p => p.1 = k) then
    entries.map (fun p => if p.1 = k then (k, v) else p)
  else entries ++ [(k, v)]

/-- JS `Map.prototype.set`: same in-place-overwrite-or-append discipline. -/
def mapSet (m : List (String × FieldControl)) (k : String) (v : FieldControl) : List (String × FieldControl) :=
  if m.any (fun p => p.1 = k) then
    m.map (fun p => if p.1 = k then (k, v) else p)
  else m ++ [(k, v)]

mutual

/-- Loop of `buildGroup` of the runtime compiler over the children, threading
the entry record of the group being built and the shared `controlsByKey` map:
each child's entry is computed and written into the record in order. -/
def buildChildren (children : List FieldNode) (entries : List (String × ValueNode)) (controlsByKey : List (String × FieldControl)) : List (String × ValueNode) × List (String × FieldControl) :=
  match children with
  | [] => (entries, controlsByKey)
  | child :: rest =>
      let r := buildChild child controlsByKey
      buildChildren rest (recordSet entries r.1.1 r.1.2) r.2

/-- Compilation of a single child: a group child is compiled recursively and
entered under its id, a control child is compiled and entered under its key
and also registered in the shared key map. -/
def buildChild : FieldNode → List (String × FieldControl) → (String × ValueNode) × List (String × FieldControl)
  | .group i _ cs, controlsByKey =>
      let sub := buildChildren cs [] controlsByKey
      ((i, .group sub.1), sub.2)
  | .control c, controlsByKey =>
      ((c.key, .control (initialValue c) (buildValidators c)), mapSet controlsByKey c.key c)

end

/-- Runtime compilation result of `build(schema)`. -/
structure RuntimeBuildResult where
  form : ValueNode
  controlsByKey : List (String × FieldControl)

/-- Operation `build` of `FormRuntimeService`. -/
def build (schema : FormSchema) : RuntimeBuildResult :=
  let r := buildChildren schema.root.children [] []
  ⟨.group r.1, r.2⟩

/-- Visibility of a single control, `isFieldVisible` of the preview component:
without conditions the `visibleByDefault !== false` default applies; with
conditions their results are combined by the rule's mode. -/
def isFieldVisible (field : FieldControl) (formValue : JsValue) : Bool :=
  let defaultVisible := field.visibleByDefault ≠ some false
  match field.visibility with
  | none => defaultVisible
  | some visibility =>
      if visibility.conditions.isEmpty then defaultVisible
      else
        let results := visibility.conditions.map (fun condition => evaluateCondition condition formValue)
        match visibility.mode with
        | .all => results.all (fun b => b)
        | .any => results.any (fun b => b)

/-- Add to a set modelled as a duplicate-free insertion-ordered list. -/
def setAdd (s : List String) (x : String) : List String :=
  if x ∈ s then s else s ++ [x]

/-- Accumulator pass of `computeVisibility`'s inner `walk` over a forest:
returns the grown visible-key and visible-group accumulators together with
the group's own `anyVisible` report. Group children are walked first and
added to the visible-group set when they report visible; visible controls are
added to the visible-key set. -/
def walkChildren (formValue : JsValue) (children : List FieldNode) (keys : List String) (gids : List String) : List String × List String × Bool :=
  match children with
  | [] => (keys, gids, false)
  | child :: rest =>
      match child with
      | .group i _ cs =>
          let sub := walkChildren formValue cs keys gids
          let gids1 := if sub.2.2 then setAdd sub.2.1 i else sub.2.1
          let tail := walkChildren formValue rest sub.1 gids1
          (tail.1, tail.2.1, sub.2.2 || tail.2.2)
      | .control c =>
          let visible := isFieldVisible c formValue
          let keys1 := if visible then setAdd keys c.key else keys
          let tail := walkChildren formValue rest keys1 gids
          (tail.1, tail.2.1, visible || tail.2.2)

/-- Result of `computeVisibility`. -/
structure VisibilityResult where
  visibleControlKeys : List String
  visibleGroupIds : List String

/-- Visibility computation `computeVisibility` of the preview component: the
root id is visible from the start, then the tree is walked. -/
def computeVisibility (root : FieldGroup) (formValue : JsValue) : VisibilityResult :=
  let r := walkChildren formValue root.children [] [root.id]
  ⟨r.1, r.2.1⟩

mutual

/-- Removal as the spec describes it: every child subtree rooted at the id is
deleted, at every level, and every surviving node is kept value-equal (groups
only lose deleted descendants). -/
def pruneNode (nodeId : String) : FieldNode → FieldNode
  | .control c => .control c
  | .group i l cs => .group i l (pruneChildren nodeId cs)

/-- Prune a forest: drop matching roots, prune the survivors. -/
def pruneChildren (nodeId : String) : List FieldNode → List FieldNode
  | [] => []
  | child :: rest =>
      if child.nodeId = nodeId then pruneChildren nodeId rest
      else pruneNode nodeId child :: pruneChildren nodeId rest

end

/-- Prune a group tree below its root. -/
def pruneG (nodeId : String) (g : FieldGroup) : FieldGroup :=
  ⟨g.id, g.label, pruneChildren nodeId g.children⟩

mutual

/-- Visibility of a node as the spec reads it: a control by `isFieldVisible`,
a group reported visible exactly when at least one child is visible. -/
def reportsVisible (formValue : JsValue) : FieldNode → Bool
  | .control c => isFieldVisible c formValue
  | .group _ _ cs => reportsVisibleAny formValue cs

/-- Some node of the forest is visible. -/
def reportsVisibleAny (formValue : JsValue) : List FieldNode → Bool
  | [] => false
  | child :: rest => reportsVisible formValue child || reportsVisibleAny formValue rest

end

mutual

/-- Controls of a subtree in depth-first order. -/
def allControlsNode : FieldNode → List FieldControl
  | .control c => [c]
  | .group _ _ cs => allControlsChildren cs

/-- Controls of a forest in depth-first order. -/
def allControlsChildren : List FieldNode → List FieldControl
  | [] => []
  | child :: rest => allControlsNode child ++ allControlsChildren rest

end

/-- Controls of a group tree in depth-first order. -/
def allControls (g : FieldGroup) : List FieldControl :=
  allControlsChildren g.children

/-- Name under which a child is entered in its parent's value record: the id
for a group, the key for a control. -/
def entryName : FieldNode → String
  | .group i _ _ => i
  | .control c => c.key

mutual

/-- Entry names are collision-free at every level of a subtree. -/
def levelNamesOkNode : FieldNode → Bool
  | .control _ => true
  | .group _ _ cs => (cs.map entryName).Nodup && levelNamesOkChildren cs

/-- Entry names are collision-free at every level of every tree of a forest. -/
def levelNamesOkChildren : List FieldNode → Bool
  | [] => true
  | child :: rest => levelNamesOkNode child && levelNamesOkChildren rest

end

/-- Seed value as worded by the spec: the control's default value, or `false`
for a checkbox without one, or null otherwise. -/
def seedSpec (c : FieldControl) : JsValue :=
  match c.defaultValue with
  | some (some p) => p.toJsValue
  | _ => if c.type = .checkbox then .bool false else .null

mutual

/-- Value tree as worded by the spec: each group child nested under the
group's id, each control leaf entered under the control's key with its seed
value (and compiled validators). -/
def valueTreeSpec : FieldNode → ValueNode
  | .control c => .control (seedSpec c) (buildValidators c)
  | .group _ _ cs => .group (valueEntriesSpec cs)

/-- Spec-side value entries of a forest. -/
def valueEntriesSpec : List FieldNode → List (String × ValueNode)
  | [] => []
  | child :: rest => (entryName child, valueTreeSpec child) :: valueEntriesSpec rest

end

/-- JS `typeof` tag of a runtime value is the tag of the primitive. -/
def sameTypeOf : JsValue → Prim → Bool
  | .str _, .str _ => true
  | .num _, .num _ => true
  | .bool _, .bool _ => true
  | _, _ => false

/-- Actual value shapes under which an operator's comparison is between
incompatible types: strict (in)equality needs matching `typeof` tags,
the numeric comparisons need numbers on both sides, `includes`/`contains`
needs a text or sequence on the left, `isChecked` a boolean. -/
def opIncompatible (op : VisibilityOperator) (actual : JsValue) (expected : Prim) : Bool :=
  match op with
  | .equals | .notEquals => !(sameTypeOf actual expected)
  | .greaterThan | .lessThan =>
      !((match actual with | .num _ => true | _ => false) &&
        (match expected with | .num _ => true | _ => false))
  | .includes | .contains =>
      !(match actual with | .str _ => true | .arr _ => true | _ => false)
  | .isChecked => !(match actual with | .bool _ => true | _ => false)
  | .unknownOp _ => true

/-- Modelled from the spec: Angular's built-in empty-input test used by the
`required` validator (the validator's code lives in `@angular/forms`, outside
this repository) — a value is empty when it is null or undefined, or an empty
string, or an empty array. -/
def isEmptyInputValue : JsValue → Bool
  | .undefined => true
  | .null => true
  | .str s => s.isEmpty
  | .arr elems => elems.isEmpty
  | _ => false

/-- Modelled from the spec: Angular's `Validators.required` accepts exactly
the non-empty values (the must-be-non-empty check). -/
def requiredAccepts (v : JsValue) : Bool :=
  !(isEmptyInputValue v)

/-- Modelled from the spec: Angular's `Validators.requiredTrue` accepts
exactly the value boolean `true` (the must-be-true check). -/
def requiredTrueAccepts (v : JsValue) : Bool :=
  match v with
  | .bool true => true
  | _ => false

/-- Entries of a compiled group value-holder (empty for a leaf). -/
def formEntries : ValueNode → List (String × ValueNode)
  | .group entries => entries
  | .control _ _ => []

/-- Concrete control used by witnesses. -/
def exampleControl : FieldControl :=
  ⟨"c1", .text, "name", "Name", none, none, none, none, none, none, none⟩

/-- Concrete schema with an empty root group used by witnesses. -/
def exampleSchema : FormSchema :=
  ⟨"form-1", "Form", "1.0.0", ⟨"root", "Root", []⟩⟩

/-- Concrete store state used by witnesses. -/
def exampleState : FormSchemaState :=
  ⟨some exampleSchema, none, 5⟩

/-- Control whose key collides with a sibling group's id. -/
def clashControl : FieldControl :=
  ⟨"c1", .text, "k", "Clash", none, none, none, none, none, none, none⟩

/-- Schema where a group id equals a sibling control's key, although all
control keys are pairwise distinct. -/
def clashSchema : FormSchema :=
  ⟨"f1", "Form", "1.0.0", ⟨"root", "Root", [.group "k" "Sub" [], .control clashControl]⟩⟩

mutual

/-- All (id, children) pairs of the groups of a subtree, itself included. -/
def groupNodesNode : FieldNode → List (String × List FieldNode)
  | .control _ => []
  | .group i _ cs => (i, cs) :: groupNodesChildren cs

/-- All (id, children) pairs of the groups of a forest. -/
def groupNodesChildren : List FieldNode → List (String × List FieldNode)
  | [] => []
  | n :: rest => groupNodesNode n ++ groupNodesChildren rest

end

theorem strictEqPrim_false_of_not_sameTypeOf (a : JsValue) (e : Prim)
    (h : sameTypeOf a e = false) : strictEqPrim a e = false := by
  cases a <;> cases e <;> simp_all [sameTypeOf, strictEqPrim]

theorem sameTypeOf_undefined (e : Prim) : sameTypeOf JsValue.undefined e = false := by
  cases e <;> rfl

/-- Claim C1 (amended): a condition whose key does not resolve in the value
snapshot (`readFormValue` yields `undefined`), or whose comparison is between
incompatible types, evaluates to false under `equals`, `greaterThan`,
`lessThan`, `includes`/`contains` and `isChecked` — but to true under
`notEquals`, since strict inequality holds for a missing or type-mismatched
actual value; evaluation is total, hence never faults. -/
theorem evaluateCondition_unresolved_eval (c : VisibilityCondition) (v : JsValue)
    (h : readFormValue v c.fieldKey = JsValue.undefined ∨
         opIncompatible c.operator (readFormValue v c.fieldKey) c.value = true) :
    (c.operator = .notEquals → evaluateCondition c v = true) ∧
    (c.operator ≠ .notEquals → evaluateCondition c v = false) := by
  rcases c with ⟨k, op, e⟩
  simp only at h
  simp only [evaluateCondition]
  cases op
  case equals =>
    refine ⟨fun hcontra => (nomatch hcontra), fun _ => ?_⟩
    rcases h with h | h
    · rw [h]; exact strictEqPrim_false_of_not_sameTypeOf _ _ (sameTypeOf_undefined e)
    · simp only [opIncompatible, Bool.not_eq_true'] at h
      exact strictEqPrim_false_of_not_sameTypeOf _ _ h
  case notEquals =>
    refine ⟨fun _ => ?_, fun hcontra => absurd rfl hcontra⟩
    have : strictEqPrim (readFormValue v k) e = false := by
      rcases h with h | h
      · rw [h]; exact strictEqPrim_false_of_not_sameTypeOf _ _ (sameTypeOf_undefined e)
      · simp only [opIncompatible, Bool.not_eq_true'] at h
        exact strictEqPrim_false_of_not_sameTypeOf _ _ h
    simp [this]
  case greaterThan =>
    refine ⟨fun hcontra => (nomatch hcontra), fun _ => ?_⟩
    rcases h with h | h
    · rw [h]
    · simp only [opIncompatible, Bool.not_eq_true'] at h
      cases ha : readFormValue v k <;> cases e <;> simp_all
  case lessThan =>
    refine ⟨fun hcontra => (nomatch hcontra), fun _ => ?_⟩
    rcases h with h | h
    · rw [h]
    · simp only [opIncompatible, Bool.not_eq_true'] at h
      cases ha : readFormValue v k <;> cases e <;> simp_all
  case includes =>
    refine ⟨fun hcontra => (nomatch hcontra), fun _ => ?_⟩
    rcases h with h | h
    · rw [h]
    · simp only [opIncompatible, Bool.not_eq_true'] at h
      cases ha : readFormValue v k <;> simp_all
  case contains =>
    refine ⟨fun hcontra => (nomatch hcontra), fun _ => ?_⟩
    rcases h with h | h
    · rw [h]
    · simp only [opIncompatible, Bool.not_eq_true'] at h
      cases ha : readFormValue v k <;> simp_all
  case isChecked =>
    refine ⟨fun hcontra => (nomatch hcontra), fun _ => ?_⟩
    rcases h with h | h
    · rw [h]
    · simp only [opIncompatible, Bool.not_eq_true'] at h
      cases ha : readFormValue v k <;> simp_all
  case unknownOp s =>
    exact ⟨fun hcontra => (nomatch hcontra), fun _ => rfl⟩

/-- Claim C1, counterexample: with an empty snapshot the key "a" resolves to
`undefined`, yet the `notEquals` condition evaluates to true — not false as
the claim states for every operator. -/
theorem evaluateCondition_notEquals_missing_key_true :
    readFormValue (JsValue.obj []) "a" = JsValue.undefined ∧
    evaluateCondition ⟨"a", .notEquals, .str "x"⟩ (JsValue.obj []) = true := ⟨rfl, rfl⟩

/-- Claim C6: a control with no visibility conditions is visible exactly by
`visibleByDefault` (true when absent); with at least one condition the default
is ignored and the conditions' results are conjoined for mode `all` and
disjoined for mode `any`. -/
theorem isFieldVisible_spec (field : FieldControl) (v : JsValue) :
    ((field.visibility = none ∨ ∃ r, field.visibility = some r ∧ r.conditions = []) →
      (isFieldVisible field v = true ↔ field.visibleByDefault ≠ some false)) ∧
    (∀ r, field.visibility = some r → r.conditions ≠ [] →
      ((∀ b, isFieldVisible { field with visibleByDefault := b } v = isFieldVisible field v) ∧
       (r.mode = .all → (isFieldVisible field v = true ↔ ∀ c ∈ r.conditions, evaluateCondition c v = true)) ∧
       (r.mode = .any → (isFieldVisible field v = true ↔ ∃ c ∈ r.conditions, evaluateCondition c v = true)))) := by
  constructor
  · rintro (h | ⟨r, h, hc⟩)
    · simp [isFieldVisible, h]
    · simp [isFieldVisible, h, hc]
  · intro r h hc
    have hne : r.conditions.isEmpty = false := by
      cases hr : r.conditions
      · exact absurd hr hc
      · rfl
    refine ⟨fun b => ?_, fun hm => ?_, fun hm => ?_⟩
    · simp [isFieldVisible, h, hne]
    · simp [isFieldVisible, h, hne, hm, List.all_eq_true, List.all_map]
    · simp [isFieldVisible, h, hne, hm, List.any_eq_true, List.any_map]

/-- Claim C5: a required non-checkbox control gets the must-be-non-empty
check (every empty value is rejected), a required checkbox gets the
must-be-true check (only boolean true is accepted), and a control without
`required = true` receives neither. -/
theorem buildValidators_required_checks (field : FieldControl) :
    (field.required = some true → field.type ≠ .checkbox →
      Validator.required ∈ buildValidators field ∧
      ∀ v : JsValue, isEmptyInputValue v = true → requiredAccepts v = false) ∧
    (field.required = some true → field.type = .checkbox →
      Validator.requiredTrue ∈ buildValidators field ∧
      ∀ v : JsValue, requiredTrueAccepts v = true ↔ v = .bool true) ∧
    (field.required ≠ some true →
      Validator.required ∉ buildValidators field ∧ Validator.requiredTrue ∉ buildValidators field) := by
  refine ⟨fun hreq hnotcb => ⟨?_, ?_⟩, fun hreq hcb => ⟨?_, ?_⟩, fun hreq => ⟨?_, ?_⟩⟩
  · cases hv : field.validators <;> simp [buildValidators, hreq, hv, if_neg hnotcb]
  · intro v hv
    simp [requiredAccepts, hv]
  · cases hv : field.validators <;> simp [buildValidators, hreq, hv, hcb]
  · intro v
    cases v <;> simp [requiredTrueAccepts]
    rename_i b
    cases b <;> simp
  · cases hv : field.validators with
    | none => simp [buildValidators, hreq, hv]
    | some rules =>
        rcases rules with ⟨mn, mx, ml, xl, pt⟩
        cases mn <;> cases mx <;> cases ml <;> cases xl <;> cases pt <;>
          simp [buildValidators, hreq, hv]
  · cases hv : field.validators with
    | none => simp [buildValidators, hreq, hv]
    | some rules =>
        rcases rules with ⟨mn, mx, ml, xl, pt⟩
        cases mn <;> cases mx <;> cases ml <;> cases xl <;> cases pt <;>
          simp [buildValidators, hreq, hv]


mutual

theorem removedChild_iff (nodeId : String) (n : FieldNode) :
    (removeFromChild nodeId n).2.2 = true ↔ nodeId ∈ allIdsNode n := by
  cases n with
  | control c =>
      by_cases h : c.id = nodeId
      · simp [removeFromChild, allIdsNode, h]
      · simp [removeFromChild, allIdsNode, h]
        exact fun hh => h hh.symm
  | group i l cs =>
      by_cases h : i = nodeId
      · simp [removeFromChild, allIdsNode, h]
      · have ih := removedChildren_iff nodeId cs
        by_cases hm : nodeId ∈ allIdsChildren cs
        · simp [removeFromChild, allIdsNode, h, ih, hm]
        · simp [removeFromChild, allIdsNode, h, ih, hm]
          exact fun hh => h hh.symm

theorem removedChildren_iff (nodeId : String) (cs : List FieldNode) :
    (removeFromChildren nodeId cs).2.2 = true ↔ nodeId ∈ allIdsChildren cs := by
  cases cs with
  | nil => simp [removeFromChildren, allIdsChildren]
  | cons child rest =>
      have ih1 := removedChild_iff nodeId child
      have ih2 := removedChildren_iff nodeId rest
      simp [removeFromChildren, allIdsChildren, Bool.or_eq_true, ih1, ih2]

end

mutual

theorem pruneNode_no_match (nodeId : String) (n : FieldNode)
    (h : nodeId ∉ allIdsNode n) : pruneNode nodeId n = n := by
  cases n with
  | control c => rfl
  | group i l cs =>
      have h2 : nodeId ∉ allIdsChildren cs := fun hm => h (by simp [allIdsNode, hm])
      simp [pruneNode, pruneChildren_no_match nodeId cs h2]

theorem pruneChildren_no_match (nodeId : String) (cs : List FieldNode)
    (h : nodeId ∉ allIdsChildren cs) : pruneChildren nodeId cs = cs := by
  cases cs with
  | nil => rfl
  | cons child rest =>
      have h1 : nodeId ∉ allIdsNode child := fun hm => h (by simp [allIdsChildren, hm])
      have h2 : nodeId ∉ allIdsChildren rest := fun hm => h (by simp [allIdsChildren, hm])
      have hid : child.nodeId ≠ nodeId := by
        intro hh
        apply h1
        cases child <;> simp [FieldNode.nodeId] at hh <;> simp [allIdsNode, hh]
      simp [pruneChildren, hid, pruneNode_no_match nodeId child h1,
            pruneChildren_no_match nodeId rest h2]

end

mutual

theorem removeFromChild_fst (nodeId : String) (n : FieldNode) :
    (removeFromChild nodeId n).1 = pruneChildren nodeId [n] := by
  cases n with
  | control c =>
      by_cases h : c.id = nodeId <;>
        simp [removeFromChild, pruneChildren, pruneNode, FieldNode.nodeId, h]
  | group i l cs =>
      by_cases h : i = nodeId
      · simp [removeFromChild, pruneChildren, FieldNode.nodeId, h]
      · have hfst := removeFromChildren_fst nodeId cs
        by_cases hrm : (removeFromChildren nodeId cs).2.2 = true
        · simp [removeFromChild, pruneChildren, pruneNode, FieldNode.nodeId, h, hrm, hfst]
        · have hni : nodeId ∉ allIdsChildren cs := fun hm =>
            hrm ((removedChildren_iff nodeId cs).2 hm)
          simp [removeFromChild, pruneChildren, pruneNode, FieldNode.nodeId, h, hrm,
                pruneChildren_no_match nodeId cs hni]

theorem removeFromChildren_fst (nodeId : String) (cs : List FieldNode) :
    (removeFromChildren nodeId cs).1 = pruneChildren nodeId cs := by
  cases cs with
  | nil => rfl
  | cons child rest =>
      have h1 := removeFromChild_fst nodeId child
      have h2 := removeFromChildren_fst nodeId rest
      by_cases hid : child.nodeId = nodeId
      · have : pruneChildren nodeId [child] = [] := by simp [pruneChildren, hid]
        simp [removeFromChildren, h1, h2, this, pruneChildren, hid]
      · have : pruneChildren nodeId [child] = [pruneNode nodeId child] := by
          simp [pruneChildren, hid]
        simp [removeFromChildren, h1, h2, this, pruneChildren, hid]

end

mutual

theorem removedChild_isSome (nodeId : String) (n : FieldNode) :
    (removeFromChild nodeId n).2.1.isSome = (removeFromChild nodeId n).2.2 := by
  cases n with
  | control c => by_cases h : c.id = nodeId <;> simp [removeFromChild, h]
  | group i l cs =>
      by_cases h : i = nodeId
      · simp [removeFromChild, h]
      · have ih := removedChildren_isSome nodeId cs
        by_cases hrm : (removeFromChildren nodeId cs).2.2 = true <;>
          simp [removeFromChild, h, hrm] <;> simp [hrm] at ih <;> simp [ih]

theorem removedChildren_isSome (nodeId : String) (cs : List FieldNode) :
    (removeFromChildren nodeId cs).2.1.isSome = (removeFromChildren nodeId cs).2.2 := by
  cases cs with
  | nil => simp [removeFromChildren]
  | cons child rest =>
      have ih1 := removedChild_isSome nodeId child
      have ih2 := removedChildren_isSome nodeId rest
      cases htl : (removeFromChildren nodeId rest).2.1 with
      | some n => simp [removeFromChildren, htl] ; simp [htl] at ih2 ; simp [← ih2]
      | none =>
          simp [removeFromChildren, htl]
          simp [htl] at ih2
          simp [← ih2, ih1]

end

mutual

theorem removedChild_id (nodeId : String) (n : FieldNode) (n' : FieldNode)
    (h : (removeFromChild nodeId n).2.1 = some n') : n'.nodeId = nodeId := by
  cases n with
  | control c =>
      by_cases hc : c.id = nodeId <;> simp [removeFromChild, hc] at h
      subst h ; simpa [FieldNode.nodeId]
  | group i l cs =>
      by_cases hg : i = nodeId
      · simp [removeFromChild, hg] at h
        subst h ; simpa [FieldNode.nodeId]
      · by_cases hrm : (removeFromChildren nodeId cs).2.2 = true <;>
          simp [removeFromChild, hg, hrm] at h
        exact removedChildren_id nodeId cs n' h

theorem removedChildren_id (nodeId : String) (cs : List FieldNode) (n' : FieldNode)
    (h : (removeFromChildren nodeId cs).2.1 = some n') : n'.nodeId = nodeId := by
  cases cs with
  | nil => simp [removeFromChildren] at h
  | cons child rest =>
      cases htl : (removeFromChildren nodeId rest).2.1 with
      | some m =>
          simp [removeFromChildren, htl] at h
          exact removedChildren_id nodeId rest n' (by rw [htl, h])
      | none =>
          simp [removeFromChildren, htl] at h
          exact removedChild_id nodeId child n' h

end

mutual

theorem removedChild_sub (nodeId : String) (n : FieldNode) (n' : FieldNode)
    (h : (removeFromChild nodeId n).2.1 = some n') :
    ∀ y ∈ allIdsNode n', y ∈ allIdsNode n := by
  cases n with
  | control c =>
      by_cases hc : c.id = nodeId <;> simp [removeFromChild, hc] at h
      subst h ; exact fun y hy => hy
  | group i l cs =>
      by_cases hg : i = nodeId
      · subst hg
        simp [removeFromChild] at h
        subst h ; exact fun y hy => hy
      · by_cases hrm : (removeFromChildren nodeId cs).2.2 = true <;>
          simp [removeFromChild, hg, hrm] at h
        intro y hy
        have := removedChildren_sub nodeId cs n' h y hy
        simp [allIdsNode, this]

theorem removedChildren_sub (nodeId : String) (cs : List FieldNode) (n' : FieldNode)
    (h : (removeFromChildren nodeId cs).2.1 = some n') :
    ∀ y ∈ allIdsNode n', y ∈ allIdsChildren cs := by
  cases cs with
  | nil => simp [removeFromChildren] at h
  | cons child rest =>
      intro y hy
      cases htl : (removeFromChildren nodeId rest).2.1 with
      | some m =>
          simp [removeFromChildren, htl] at h
          have := removedChildren_sub nodeId rest n' (by rw [htl, h]) y hy
          simp [allIdsChildren, this]
      | none =>
          simp [removeFromChildren, htl] at h
          have := removedChild_sub nodeId child n' h y hy
          simp [allIdsChildren, this]

end

mutual

theorem pruneNode_ids_sub (nodeId : String) (n : FieldNode) (y : String)
    (h : y ∈ allIdsNode (pruneNode nodeId n)) : y ∈ allIdsNode n := by
  cases n with
  | control c => simpa [pruneNode] using h
  | group i l cs =>
      simp [pruneNode, allIdsNode] at h
      rcases h with h | h
      · simp [allIdsNode, h]
      · have := pruneChildren_ids_sub nodeId cs y h
        simp [allIdsNode, this]

theorem pruneChildren_ids_sub (nodeId : String) (cs : List FieldNode) (y : String)
    (h : y ∈ allIdsChildren (pruneChildren nodeId cs)) : y ∈ allIdsChildren cs := by
  cases cs with
  | nil => simpa [pruneChildren] using h
  | cons child rest =>
      by_cases hid : child.nodeId = nodeId
      · simp [pruneChildren, hid] at h
        have := pruneChildren_ids_sub nodeId rest y h
        simp [allIdsChildren, this]
      · simp [pruneChildren, hid, allIdsChildren] at h
        rcases h with h | h
        · have := pruneNode_ids_sub nodeId child y h
          simp [allIdsChildren, this]
        · have := pruneChildren_ids_sub nodeId rest y h
          simp [allIdsChildren, this]

end

theorem allIdsChildren_append (l1 l2 : List FieldNode) :
    allIdsChildren (l1 ++ l2) = allIdsChildren l1 ++ allIdsChildren l2 := by
  induction l1 with
  | nil => simp [allIdsChildren]
  | cons x xs ih => simp [allIdsChildren, ih]

theorem removedChildren_none_fst (nodeId : String) (cs : List FieldNode)
    (h : (removeFromChildren nodeId cs).2.2 = false) :
    (removeFromChildren nodeId cs).1 = cs := by
  have hni : nodeId ∉ allIdsChildren cs := fun hm => by
    have := (removedChildren_iff nodeId cs).2 hm
    rw [this] at h
    cases h
  rw [removeFromChildren_fst, pruneChildren_no_match nodeId cs hni]

mutual

theorem removedChild_disjoint (nodeId : String) (n : FieldNode)
    (hnd : (allIdsNode n).Nodup) (n' : FieldNode)
    (h : (removeFromChild nodeId n).2.1 = some n') :
    ∀ y ∈ allIdsNode n', y ∉ allIdsChildren (removeFromChild nodeId n).1 := by
  cases n with
  | control c =>
      by_cases hc : c.id = nodeId <;> simp [removeFromChild, hc] at h ⊢
      simp [allIdsChildren]
  | group i l cs =>
      by_cases hg : i = nodeId
      · simp [removeFromChild, hg, allIdsChildren]
      · by_cases hrm : (removeFromChildren nodeId cs).2.2 = true <;>
          simp [removeFromChild, hg, hrm] at h ⊢
        have hnd2 : (allIdsChildren cs).Nodup := by
          simp [allIdsNode, List.nodup_cons] at hnd
          exact hnd.2
        have hi : i ∉ allIdsChildren cs := by
          simp [allIdsNode, List.nodup_cons] at hnd
          exact hnd.1
        intro y hy
        have hnott := removedChildren_disjoint nodeId cs hnd2 n' h y hy
        have hsub := removedChildren_sub nodeId cs n' h y hy
        simp [allIdsChildren, allIdsNode]
        exact ⟨fun he => hi (he ▸ hsub), hnott⟩

theorem removedChildren_disjoint (nodeId : String) (cs : List FieldNode)
    (hnd : (allIdsChildren cs).Nodup) (n' : FieldNode)
    (h : (removeFromChildren nodeId cs).2.1 = some n') :
    ∀ y ∈ allIdsNode n', y ∉ allIdsChildren (removeFromChildren nodeId cs).1 := by
  cases cs with
  | nil => simp [removeFromChildren] at h
  | cons child rest =>
      have hnd' : (allIdsNode child).Nodup ∧ (allIdsChildren rest).Nodup ∧
          (allIdsNode child).Disjoint (allIdsChildren rest) := by
        simpa [allIdsChildren, List.nodup_append] using hnd
      intro y hy
      have hkept : (removeFromChildren nodeId (child :: rest)).1 =
          (removeFromChild nodeId child).1 ++ (removeFromChildren nodeId rest).1 := by
        simp [removeFromChildren]
      rw [hkept, allIdsChildren_append]
      simp only [List.mem_append, not_or]
      cases htl : (removeFromChildren nodeId rest).2.1 with
      | some m =>
          have hn' : (removeFromChildren nodeId rest).2.1 = some n' := by
            simp [removeFromChildren, htl] at h
            rw [htl, h]
          have hyrest : y ∈ allIdsChildren rest := removedChildren_sub nodeId rest n' hn' y hy
          constructor
          · intro hyh
            have hych : y ∈ allIdsNode child := by
              have hfst := removeFromChild_fst nodeId child
              rw [hfst] at hyh
              have := pruneChildren_ids_sub nodeId [child] y hyh
              simpa [allIdsChildren] using this
            exact hnd'.2.2 hych hyrest
          · exact removedChildren_disjoint nodeId rest hnd'.2.1 n' hn' y hy
      | none =>
          have hh : (removeFromChild nodeId child).2.1 = some n' := by
            simpa [removeFromChildren, htl] using h
          have hych : y ∈ allIdsNode child := removedChild_sub nodeId child n' hh y hy
          constructor
          · exact removedChild_disjoint nodeId child hnd'.1 n' hh y hy
          · have hrm : (removeFromChildren nodeId rest).2.2 = false := by
              have := removedChildren_isSome nodeId rest
              rw [htl] at this
              simpa using this.symm
            rw [removedChildren_none_fst nodeId rest hrm]
            exact fun hyr => hnd'.2.2 hych hyr

end

mutual

theorem insertIntoNode_added_iff (pid : String) (node : FieldNode) (idx : Option Int) (n : FieldNode) :
    (insertIntoNode pid node idx n).2 = true ↔ pid ∈ groupIdsNode n := by
  cases n with
  | control c => simp [insertIntoNode, groupIdsNode]
  | group i l cs =>
      by_cases h : i = pid
      · simp [insertIntoNode, groupIdsNode, h]
      · have ih := insertIntoChildren_added_iff pid node idx cs
        by_cases ha : (insertIntoChildren pid node idx cs).2 = true
        · have hmem : pid ∈ groupIdsChildren cs := ih.1 ha
          simp [insertIntoNode, groupIdsNode, h, ha, hmem]
        · have hmem : pid ∉ groupIdsChildren cs := fun hm => ha (ih.2 hm)
          simp [insertIntoNode, groupIdsNode, h, ha, hmem]
          exact fun hh => absurd hh.symm h

theorem insertIntoChildren_added_iff (pid : String) (node : FieldNode) (idx : Option Int) (cs : List FieldNode) :
    (insertIntoChildren pid node idx cs).2 = true ↔ pid ∈ groupIdsChildren cs := by
  cases cs with
  | nil => simp [insertIntoChildren, groupIdsChildren]
  | cons child rest =>
      have ih1 := insertIntoNode_added_iff pid node idx child
      have ih2 := insertIntoChildren_added_iff pid node idx rest
      simp [insertIntoChildren, groupIdsChildren, Bool.or_eq_true, ih1, ih2]

end

mutual

theorem groupIdsNode_sub (n : FieldNode) (y : String)
    (h : y ∈ groupIdsNode n) : y ∈ allIdsNode n := by
  cases n with
  | control c => simp [groupIdsNode] at h
  | group i l cs =>
      simp [groupIdsNode] at h
      rcases h with h | h
      · simp [allIdsNode, h]
      · have := groupIdsChildren_sub cs y h
        simp [allIdsNode, this]

theorem groupIdsChildren_sub (cs : List FieldNode) (y : String)
    (h : y ∈ groupIdsChildren cs) : y ∈ allIdsChildren cs := by
  cases cs with
  | nil => simp [groupIdsChildren] at h
  | cons child rest =>
      simp [groupIdsChildren] at h
      rcases h with h | h
      · have := groupIdsNode_sub child y h
        simp [allIdsChildren, this]
      · have := groupIdsChildren_sub rest y h
        simp [allIdsChildren, this]

end

mutual

theorem findNode_none_iff (n : FieldNode) (nid : String) :
    findNode n nid = none ↔ nid ∉ allIdsNode n := by
  cases n with
  | control c =>
      by_cases h : c.id = nid
      · simp [findNode, FieldNode.nodeId, allIdsNode, h]
      · simp [findNode, FieldNode.nodeId, allIdsNode, h]
        exact fun hh => h hh.symm
  | group i l cs =>
      by_cases h : i = nid
      · simp [findNode, FieldNode.nodeId, allIdsNode, h]
      · have ih := findNodeInChildren_none_iff cs nid
        simp [findNode, FieldNode.nodeId, allIdsNode, h, ih]
        intro _
        exact fun hh => absurd hh.symm h

theorem findNodeInChildren_none_iff (cs : List FieldNode) (nid : String) :
    findNodeInChildren cs nid = none ↔ nid ∉ allIdsChildren cs := by
  cases cs with
  | nil => simp [findNodeInChildren, allIdsChildren]
  | cons child rest =>
      have ih1 := findNode_none_iff child nid
      have ih2 := findNodeInChildren_none_iff rest nid
      cases hf : findNode child nid with
      | some found =>
          have hns : ¬ (findNode child nid = none) := by simp [hf]
          have hmem : nid ∈ allIdsNode child := by
            by_contra hm
            exact hns (ih1.2 hm)
          simp [findNodeInChildren, hf, allIdsChildren, hmem]
      | none =>
          have hni : nid ∉ allIdsNode child := ih1.1 hf
          simp [findNodeInChildren, hf, allIdsChildren, ih2, hni]

end

theorem insertIntoGroup_added (g : FieldGroup) (pid : String) (node : FieldNode) (idx : Option Int) :
    (insertIntoGroup g pid node idx).added = (insertIntoNode pid node idx g.toNode).2 := by
  unfold insertIntoGroup
  rcases h : insertIntoNode pid node idx g.toNode with ⟨n', a⟩
  cases n' <;> simp

theorem groupIdsNode_toNode (g : FieldGroup) : groupIdsNode g.toNode = groupIdsG g := rfl

theorem allIdsNode_toNode (g : FieldGroup) : allIdsNode g.toNode = allIdsG g := rfl

theorem insertIntoGroup_added_iff (g : FieldGroup) (pid : String) (node : FieldNode) (idx : Option Int) :
    (insertIntoGroup g pid node idx).added = true ↔ pid ∈ groupIdsG g := by
  rw [insertIntoGroup_added, insertIntoNode_added_iff, groupIdsNode_toNode]

theorem removeNodeFromGroup_removedNode_some (g : FieldGroup) (nodeId : String) (n : FieldNode)
    (h : (removeNodeFromGroup g nodeId).removedNode = some n) :
    (removeFromChildren nodeId g.children).2.2 = true ∧
    (removeFromChildren nodeId g.children).2.1 = some n ∧
    (removeNodeFromGroup g nodeId).removed = true ∧
    (removeNodeFromGroup g nodeId).group = ⟨g.id, g.label, (removeFromChildren nodeId g.children).1⟩ := by
  by_cases hrm : (removeFromChildren nodeId g.children).2.2 = true
  · refine ⟨hrm, ?_, ?_, ?_⟩ <;> simp [removeNodeFromGroup, hrm] at h ⊢ <;> exact h
  · simp [removeNodeFromGroup, hrm] at h

/-- Claim C2: `moveNode` is atomic — either the schema value is left unchanged,
or both the removal half and the insertion half succeeded; in particular when
either half fails the published schema is value-equal to the one before the
call. -/
theorem moveNode_atomic (st : FormSchemaState) (d t : String) (i : Int) (now : Nat) :
    (moveNode st d t i now).1.currentSchema = st.currentSchema ∨
    (∃ s, st.currentSchema = some s ∧
      (removeNodeFromGroup s.root d).removed = true ∧
      ∃ n, (removeNodeFromGroup s.root d).removedNode = some n ∧
        (insertIntoGroup (removeNodeFromGroup s.root d).group t n (some i)).added = true) := by
  cases hs : st.currentSchema with
  | none => left ; simp [moveNode, updateSchema, hs]
  | some s =>
      by_cases hrm : (removeNodeFromGroup s.root d).removed = true
      · cases hrn : (removeNodeFromGroup s.root d).removedNode with
        | none =>
            left
            simp [moveNode, updateSchema, hs, moveNodeSchema, deepClone, hrm, hrn]
        | some n =>
            by_cases hadd : (insertIntoGroup (removeNodeFromGroup s.root d).group t n (some i)).added = true
            · right
              exact ⟨s, rfl, hrm, n, hrn, hadd⟩
            · left
              simp only [Bool.not_eq_true] at hadd
              simp [moveNode, updateSchema, hs, moveNodeSchema, deepClone, hrm, hrn, hadd]
      · left
        simp only [Bool.not_eq_true] at hrm
        simp [moveNode, updateSchema, hs, moveNodeSchema, deepClone, hrm]

/-- Claim C3: when the move target is the dragged node itself or one of its
descendants (read off the removed subtree), the insertion half cannot find the
target in the remainder of a duplicate-free tree, so the schema is republished
value-unchanged: the store never builds a cyclic tree. -/
theorem moveNode_no_cycle (st : FormSchemaState) (s : FormSchema) (d t : String) (i : Int) (now : Nat)
    (hs : st.currentSchema = some s)
    (hnd : (allIdsG s.root).Nodup)
    (n : FieldNode)
    (hrn : (removeNodeFromGroup s.root d).removedNode = some n)
    (ht : t ∈ allIdsNode n) :
    (moveNode st d t i now).1.currentSchema = some s := by
  obtain ⟨hflag, hrn', hrm, hgrp⟩ := removeNodeFromGroup_removedNode_some s.root d n hrn
  have hndc : (allIdsChildren s.root.children).Nodup := by
    simp [allIdsG, List.nodup_cons] at hnd
    exact hnd.2
  have hrootni : s.root.id ∉ allIdsChildren s.root.children := by
    simp [allIdsG, List.nodup_cons] at hnd
    exact hnd.1
  have htc : t ∈ allIdsChildren s.root.children :=
    removedChildren_sub d s.root.children n hrn' t ht
  have htkept : t ∉ allIdsChildren (removeFromChildren d s.root.children).1 :=
    removedChildren_disjoint d s.root.children hndc n hrn' t ht
  have htroot : t ≠ s.root.id := fun he => hrootni (he ▸ htc)
  have hadd : (insertIntoGroup (removeNodeFromGroup s.root d).group t n (some i)).added = false := by
    rw [← Bool.not_eq_true, insertIntoGroup_added_iff, hgrp]
    simp [groupIdsG]
    exact ⟨htroot, fun hm => htkept (groupIdsChildren_sub _ t hm)⟩
  simp [moveNode, updateSchema, hs, moveNodeSchema, deepClone, hrm, hrn, hadd]

/-- Claim C8: for an id below the root, `removeNode` publishes the schema with
exactly the matching subtree pruned (every other node kept value-equal, as the
spec-side `pruneG` rebuilds only deletions), clears the selection exactly when
the removed id was selected, removes the whole subtree's ids from the tree
(for duplicate-free trees), and is a silent no-op for the root id. -/
theorem removeNode_spec (st : FormSchemaState) (s : FormSchema) (x : String) (now : Nat)
    (hs : st.currentSchema = some s) :
    (x ∈ descIds s.root →
       removeNode st x now =
         ({ currentSchema := some { s with root := pruneG x s.root },
            selectedNodeId := if st.selectedNodeId = some x then none else st.selectedNodeId,
            lastUpdated := now }, true)) ∧
    (∀ n, (removeNodeFromGroup s.root x).removedNode = some n →
       (allIdsG s.root).Nodup →
       ∀ y ∈ allIdsNode n, y ∉ allIdsG (removeNodeFromGroup s.root x).group) ∧
    ((allIdsG s.root).Nodup → x = s.root.id → removeNode st x now = (st, false)) := by
  refine ⟨fun hx => ?_, fun n hrn hnd y hy => ?_, fun hnd hroot => ?_⟩
  · have hrm : (removeFromChildren x s.root.children).2.2 = true :=
      (removedChildren_iff x s.root.children).2 hx
    simp [removeNode, hs, deepClone, removeNodeFromGroup, hrm, removeFromChildren_fst, pruneG]
  · obtain ⟨hflag, hrn', hrm, hgrp⟩ := removeNodeFromGroup_removedNode_some s.root x n hrn
    have hndc : (allIdsChildren s.root.children).Nodup := by
      simp [allIdsG, List.nodup_cons] at hnd
      exact hnd.2
    have hrootni : s.root.id ∉ allIdsChildren s.root.children := by
      simp [allIdsG, List.nodup_cons] at hnd
      exact hnd.1
    have hyc : y ∈ allIdsChildren s.root.children :=
      removedChildren_sub x s.root.children n hrn' y hy
    have hykept : y ∉ allIdsChildren (removeFromChildren x s.root.children).1 :=
      removedChildren_disjoint x s.root.children hndc n hrn' y hy
    rw [hgrp]
    simp [allIdsG]
    exact ⟨fun he => hrootni (he ▸ hyc), hykept⟩
  · subst hroot
    have hrootni : s.root.id ∉ allIdsChildren s.root.children := by
      simp [allIdsG, List.nodup_cons] at hnd
      exact hnd.1
    have hrm : (removeFromChildren s.root.id s.root.children).2.2 = false := by
      rw [← Bool.not_eq_true, removedChildren_iff]
      exact hrootni
    simp [removeNode, hs, deepClone, removeNodeFromGroup, hrm]

/-- Claim C9 (amended): every mutating command invoked at a clock instant
strictly later than the stored `lastUpdated` publishes a state with a strictly
larger marker, and a command that publishes nothing leaves the state
untouched; monotonicity therefore needs the clock to advance between commands
(`Date.now()` alone does not guarantee it within one millisecond). -/
theorem lastUpdated_monotone_of_clock_advance (st : FormSchemaState) (now : Nat)
    (h : st.lastUpdated < now) :
    (∀ a b c d, (loadDefaultSchema a b c d now).1.lastUpdated > st.lastUpdated) ∧
    (∀ nodeId merge,
       ((updateNode st nodeId merge now).2 = true →
          (updateNode st nodeId merge now).1.lastUpdated > st.lastUpdated) ∧
       ((updateNode st nodeId merge now).2 = false → (updateNode st nodeId merge now).1 = st)) ∧
    (∀ pid node idx,
       ((addNode st pid node idx now).2 = true →
          (addNode st pid node idx now).1.lastUpdated > st.lastUpdated) ∧
       ((addNode st pid node idx now).2 = false → (addNode st pid node idx now).1 = st)) ∧
    (∀ x,
       ((removeNode st x now).2 = true →
          (removeNode st x now).1.lastUpdated > st.lastUpdated) ∧
       ((removeNode st x now).2 = false → (removeNode st x now).1 = st)) ∧
    (∀ d t i,
       ((moveNode st d t i now).2 = true →
          (moveNode st d t i now).1.lastUpdated > st.lastUpdated) ∧
       ((moveNode st d t i now).2 = false → (moveNode st d t i now).1 = st)) := by
  refine ⟨fun a b c d => ?_, fun nodeId merge => ?_, fun pid node idx => ?_, fun x => ?_, fun d t i => ?_⟩
  · simpa [loadDefaultSchema] using h
  · cases hs : st.currentSchema <;> simp [updateNode, updateSchema, hs, h]
  · cases hs : st.currentSchema <;> simp [addNode, updateSchema, hs, h]
  · cases hs : st.currentSchema with
    | none => simp [removeNode, hs]
    | some s =>
        by_cases hrm : (removeNodeFromGroup (deepClone s.root) x).removed = false <;>
          simp [removeNode, hs, hrm, h]
  · cases hs : st.currentSchema <;> simp [moveNode, updateSchema, hs, h]

/-- Claim C10: failed commands are not uniformly silent — `addNode` with an
unresolvable parent group and `moveNode` with a failing half republish the
value-equal schema with a refreshed `lastUpdated`, while `removeNode` with an
unknown id and `selectNode` with an unknown id publish nothing at all. -/
theorem failed_commands_publish (st : FormSchemaState) (s : FormSchema) (now : Nat)
    (hs : st.currentSchema = some s) :
    (∀ pid node idx, pid ∉ groupIdsG s.root →
       addNode st pid node idx now = ({ st with lastUpdated := now }, true)) ∧
    (∀ d t i,
       ((removeNodeFromGroup s.root d).removed = false ∨
        (∀ n, (removeNodeFromGroup s.root d).removedNode = some n →
           (insertIntoGroup (removeNodeFromGroup s.root d).group t n (some i)).added = false)) →
       moveNode st d t i now = ({ st with lastUpdated := now }, true)) ∧
    (∀ x, x ∉ allIdsG s.root → removeNode st x now = (st, false)) ∧
    (∀ x, x ∉ allIdsG s.root → selectNode st (some x) = (st, false)) := by
  refine ⟨fun pid node idx hpid => ?_, fun d t i hfail => ?_, fun x hx => ?_, fun x hx => ?_⟩
  · have hadd : (insertIntoGroup s.root pid node idx).added = false := by
      rw [← Bool.not_eq_true, insertIntoGroup_added_iff]
      exact hpid
    simp [addNode, updateSchema, hs, deepClone, hadd]
  · have hnoop : moveNodeSchema s d t i = s := by
      by_cases hrm : (removeNodeFromGroup s.root d).removed = true
      · cases hrn : (removeNodeFromGroup s.root d).removedNode with
        | none => simp [moveNodeSchema, hrm, hrn]
        | some n =>
            rcases hfail with hfail | hfail
            · rw [hrm] at hfail ; cases hfail
            · simp [moveNodeSchema, hrm, hrn, hfail n hrn]
      · simp only [Bool.not_eq_true] at hrm
        simp [moveNodeSchema, hrm]
    simp [moveNode, updateSchema, hs, deepClone, hnoop]
  · have hxc : x ∉ allIdsChildren s.root.children := fun hm => hx (by simp [allIdsG, hm])
    have hrm : (removeFromChildren x s.root.children).2.2 = false := by
      rw [← Bool.not_eq_true, removedChildren_iff]
      exact hxc
    simp [removeNode, hs, deepClone, removeNodeFromGroup, hrm]
  · have hfind : findNode s.root.toNode x = none := by
      rw [findNode_none_iff, allIdsNode_toNode]
      exact hx
    simp [selectNode, hs, hfind]

theorem setAdd_mem (s : List String) (y x : String) (h : x ∈ s) : x ∈ setAdd s y := by
  by_cases hy : y ∈ s <;> simp [setAdd, hy, h]

theorem mem_setAdd_iff (s : List String) (y x : String) : x ∈ setAdd s y ↔ x ∈ s ∨ x = y := by
  by_cases hy : y ∈ s
  · simp [setAdd, hy]
    intro he
    rw [he] ; exact hy
  · simp [setAdd, hy]

theorem walkChildren_report (v : JsValue) (cs : List FieldNode) :
    ∀ keys gids, (walkChildren v cs keys gids).2.2 = reportsVisibleAny v cs := by
  cases cs with
  | nil => intro keys gids ; simp [walkChildren, reportsVisibleAny]
  | cons child rest =>
      intro keys gids
      cases child with
      | group i l cs' =>
          simp [walkChildren, reportsVisibleAny, reportsVisible,
                walkChildren_report v cs', walkChildren_report v rest]
      | control c =>
          simp [walkChildren, reportsVisibleAny, reportsVisible, walkChildren_report v rest]

theorem walkChildren_gids_mono (v : JsValue) (cs : List FieldNode) :
    ∀ keys gids x, x ∈ gids → x ∈ (walkChildren v cs keys gids).2.1 := by
  cases cs with
  | nil => intro keys gids x h ; simpa [walkChildren] using h
  | cons child rest =>
      intro keys gids x h
      cases child with
      | group i l cs' =>
          have h1 : x ∈ (walkChildren v cs' keys gids).2.1 :=
            walkChildren_gids_mono v cs' keys gids x h
          have h2 : x ∈ (if (walkChildren v cs' keys gids).2.2 then
              setAdd (walkChildren v cs' keys gids).2.1 i else (walkChildren v cs' keys gids).2.1) := by
            by_cases hb : (walkChildren v cs' keys gids).2.2 <;> simp [hb]
            · exact setAdd_mem _ i x h1
            · exact h1
          have h3 := walkChildren_gids_mono v rest (walkChildren v cs' keys gids).1 _ x h2
          simpa [walkChildren] using h3
      | control c =>
          have h3 := walkChildren_gids_mono v rest
            (if isFieldVisible c v then setAdd keys c.key else keys) gids x h
          simpa [walkChildren] using h3

theorem walkChildren_gids_iff (v : JsValue) (cs : List FieldNode) :
    ∀ keys gids x,
      (x ∈ (walkChildren v cs keys gids).2.1 ↔
        x ∈ gids ∨ ∃ cs', (x, cs') ∈ groupNodesChildren cs ∧ reportsVisibleAny v cs' = true) := by
  cases cs with
  | nil => intro keys gids x ; simp [walkChildren, groupNodesChildren]
  | cons child rest =>
      intro keys gids x
      cases child with
      | control c =>
          simp only [walkChildren]
          rw [walkChildren_gids_iff v rest]
          simp [groupNodesChildren, groupNodesNode]
      | group i l cs' =>
          simp only [walkChildren]
          rw [walkChildren_gids_iff v rest]
          by_cases hv : reportsVisibleAny v cs' = true
          · have hrep : (walkChildren v cs' keys gids).2.2 = true := by
              rw [walkChildren_report v cs' keys gids] ; exact hv
            simp only [hrep, if_true]
            rw [mem_setAdd_iff, walkChildren_gids_iff v cs']
            simp only [groupNodesChildren, groupNodesNode, List.mem_append, List.mem_cons,
                       Prod.mk.injEq]
            constructor
            · rintro (((h | ⟨cs2, h2, h3⟩) | h) | ⟨cs2, h2, h3⟩)
              · exact Or.inl h
              · exact Or.inr ⟨cs2, Or.inl (Or.inr h2), h3⟩
              · exact Or.inr ⟨cs', Or.inl (Or.inl ⟨h, rfl⟩), hv⟩
              · exact Or.inr ⟨cs2, Or.inr h2, h3⟩
            · rintro (h | ⟨cs2, (⟨he, hc⟩ | h2) | h2, h3⟩)
              · exact Or.inl (Or.inl (Or.inl h))
              · exact Or.inl (Or.inr he)
              · exact Or.inl (Or.inl (Or.inr ⟨cs2, h2, h3⟩))
              · exact Or.inr ⟨cs2, h2, h3⟩
          · have hrep : (walkChildren v cs' keys gids).2.2 = false := by
              rw [walkChildren_report v cs' keys gids]
              simpa using hv
            simp only [hrep, Bool.false_eq_true, if_false]
            rw [walkChildren_gids_iff v cs']
            simp only [groupNodesChildren, groupNodesNode, List.mem_append, List.mem_cons,
                       Prod.mk.injEq]
            constructor
            · rintro ((h | ⟨cs2, h2, h3⟩) | ⟨cs2, h2, h3⟩)
              · exact Or.inl h
              · exact Or.inr ⟨cs2, Or.inl (Or.inr h2), h3⟩
              · exact Or.inr ⟨cs2, Or.inr h2, h3⟩
            · rintro (h | ⟨cs2, (⟨he, hc⟩ | h2) | h2, h3⟩)
              · exact Or.inl (Or.inl h)
              · rw [hc] at h3 ; exact absurd h3 hv
              · exact Or.inl (Or.inr ⟨cs2, h2, h3⟩)
              · exact Or.inr ⟨cs2, h2, h3⟩

mutual

theorem groupNodesNode_fst (n : FieldNode) :
    (groupNodesNode n).map Prod.fst = groupIdsNode n := by
  cases n with
  | control c => rfl
  | group i l cs => simp [groupNodesNode, groupIdsNode, groupNodesChildren_fst cs]

theorem groupNodesChildren_fst (cs : List FieldNode) :
    (groupNodesChildren cs).map Prod.fst = groupIdsChildren cs := by
  cases cs with
  | nil => rfl
  | cons child rest =>
      simp [groupNodesChildren, groupIdsChildren, groupNodesNode_fst child,
            groupNodesChildren_fst rest]

end

mutual

theorem groupIdsNode_sublist (n : FieldNode) :
    (groupIdsNode n).Sublist (allIdsNode n) := by
  cases n with
  | control c => simp [groupIdsNode, allIdsNode]
  | group i l cs =>
      simp only [groupIdsNode, allIdsNode]
      exact List.Sublist.cons₂ i (groupIdsChildren_sublist cs)

theorem groupIdsChildren_sublist (cs : List FieldNode) :
    (groupIdsChildren cs).Sublist (allIdsChildren cs) := by
  cases cs with
  | nil => simp [groupIdsChildren, allIdsChildren]
  | cons child rest =>
      simp only [groupIdsChildren, allIdsChildren]
      exact List.Sublist.append (groupIdsNode_sublist child) (groupIdsChildren_sublist rest)

end

theorem assoc_unique {α : Type} (l : List (String × α)) (h : (l.map Prod.fst).Nodup) :
    ∀ i a b, (i, a) ∈ l → (i, b) ∈ l → a = b := by
  induction l with
  | nil => intro i a b ha ; simp at ha
  | cons p rest ih =>
      intro i a b ha hb
      simp only [List.map_cons, List.nodup_cons] at h
      rcases List.mem_cons.1 ha with ha1 | ha1 <;> rcases List.mem_cons.1 hb with hb1 | hb1
      · rw [← hb1] at ha1
        simpa using ha1
      · exfalso
        apply h.1
        rw [← ha1]
        exact List.mem_map.2 ⟨(i, b), hb1, rfl⟩
      · exfalso
        apply h.1
        rw [← hb1]
        exact List.mem_map.2 ⟨(i, a), ha1, rfl⟩
      · exact ih h.2 i a b ha1 hb1

/-- Claim C7: the visible-group set always contains the root id, and (in a
duplicate-free tree) a non-root group id is in the set exactly when at least
one of that group's children — a visible control or a recursively visible
subgroup — is visible; an empty or fully hidden group is therefore absent. -/
theorem computeVisibility_groups (root : FieldGroup) (v : JsValue) :
    root.id ∈ (computeVisibility root v).visibleGroupIds ∧
    ((allIdsG root).Nodup →
      ∀ i cs', (i, cs') ∈ groupNodesChildren root.children →
        (i ∈ (computeVisibility root v).visibleGroupIds ↔ reportsVisibleAny v cs' = true)) := by
  constructor
  · exact walkChildren_gids_mono v root.children [] [root.id] root.id (by simp)
  · intro hnd i cs' hmem
    have hndc : (allIdsChildren root.children).Nodup := by
      simp [allIdsG, List.nodup_cons] at hnd
      exact hnd.2
    have hrootni : root.id ∉ allIdsChildren root.children := by
      simp [allIdsG, List.nodup_cons] at hnd
      exact hnd.1
    have hgnd : (groupIdsChildren root.children).Nodup :=
      (groupIdsChildren_sublist root.children).nodup hndc
    have hgnd' : ((groupNodesChildren root.children).map Prod.fst).Nodup := by
      rw [groupNodesChildren_fst] ; exact hgnd
    have hi_mem : i ∈ groupIdsChildren root.children := by
      rw [← groupNodesChildren_fst]
      exact List.mem_map.2 ⟨(i, cs'), hmem, rfl⟩
    have hi_ne : i ≠ root.id := by
      intro he
      apply hrootni
      rw [← he]
      exact groupIdsChildren_sub root.children i hi_mem
    rw [show (computeVisibility root v).visibleGroupIds =
          (walkChildren v root.children [] [root.id]).2.1 from rfl,
        walkChildren_gids_iff v root.children]
    constructor
    · rintro (h | ⟨cs2, h2, h3⟩)
      · simp at h ; exact absurd h hi_ne
      · rwa [assoc_unique (groupNodesChildren root.children) hgnd' i cs' cs2 hmem h2]
    · intro hvis
      exact Or.inr ⟨cs', hmem, hvis⟩

theorem initialValue_eq_seedSpec (c : FieldControl) : initialValue c = seedSpec c := rfl

theorem controlsMap_fst (cs : List FieldControl) :
    (cs.map (fun c => (c.key, c))).map Prod.fst = cs.map FieldControl.key := by
  simp [List.map_map]

theorem allControlsChildren_append (l1 l2 : List FieldNode) :
    allControlsChildren (l1 ++ l2) = allControlsChildren l1 ++ allControlsChildren l2 := by
  induction l1 with
  | nil => simp [allControlsChildren]
  | cons x xs ih => simp [allControlsChildren, ih]

theorem recordSet_fresh (entries : List (String × ValueNode)) (k : String) (v : ValueNode)
    (h : k ∉ entries.map Prod.fst) : recordSet entries k v = entries ++ [(k, v)] := by
  have : ¬ entries.any (fun p => p.1 = k) := by
    simp only [List.any_eq_true, not_exists]
    rintro ⟨k', v'⟩ ⟨hmem, he⟩
    simp at he
    exact h (he ▸ List.mem_map.2 ⟨(k', v'), hmem, rfl⟩)
  simp [recordSet, this]

theorem mapSet_fresh (m : List (String × FieldControl)) (k : String) (v : FieldControl)
    (h : k ∉ m.map Prod.fst) : mapSet m k v = m ++ [(k, v)] := by
  have : ¬ m.any (fun p => p.1 = k) := by
    simp only [List.any_eq_true, not_exists]
    rintro ⟨k', v'⟩ ⟨hmem, he⟩
    simp at he
    exact h (he ▸ List.mem_map.2 ⟨(k', v'), hmem, rfl⟩)
  simp [mapSet, this]

theorem buildChildren_spec (cs : List FieldNode) :
    ∀ (entries : List (String × ValueNode)) (m : List (String × FieldControl)),
      (entries.map Prod.fst ++ cs.map entryName).Nodup →
      levelNamesOkChildren cs = true →
      (m.map Prod.fst ++ (allControlsChildren cs).map FieldControl.key).Nodup →
      buildChildren cs entries m =
        (entries ++ valueEntriesSpec cs,
         m ++ (allControlsChildren cs).map (fun c => (c.key, c))) := by
  cases cs with
  | nil => intro entries m _ _ _ ; simp [buildChildren, valueEntriesSpec, allControlsChildren]
  | cons child rest =>
      intro entries m hnames hlevels hkeys
      cases child with
      | group i l cs' =>
          have hlev : levelNamesOkNode (.group i l cs') = true ∧ levelNamesOkChildren rest = true := by
            simpa [levelNamesOkChildren, Bool.and_eq_true] using hlevels
          have hlev' : (cs'.map entryName).Nodup ∧ levelNamesOkChildren cs' = true := by
            simpa [levelNamesOkNode, Bool.and_eq_true, decide_eq_true_eq] using hlev.1
          have hkeys_split : (m.map Prod.fst ++
              ((allControlsChildren cs').map FieldControl.key ++
               (allControlsChildren rest).map FieldControl.key)).Nodup := by
            simpa [allControlsChildren, allControlsNode, List.map_append, List.append_assoc]
              using hkeys
          have hkeys1 : (m.map Prod.fst ++ (allControlsChildren cs').map FieldControl.key).Nodup :=
        List.Nodup.sublist ((List.sublist_append_left _ _).append_left _) hkeys_split
          have hsub := buildChildren_spec cs' [] m (by simpa using hlev'.1) hlev'.2 hkeys1
          have hifresh : i ∉ entries.map Prod.fst := by
            intro hmem
            have hdisj := (List.nodup_append.1 hnames).2.2
            exact hdisj hmem (by simp [entryName])
          have hnames' : ((entries ++ [(i, ValueNode.group (valueEntriesSpec cs'))]).map Prod.fst ++
              rest.map entryName).Nodup := by
            simpa [List.map_append, List.append_assoc, entryName] using hnames
          have hkeys' : (((m ++ (allControlsChildren cs').map (fun c => (c.key, c))).map Prod.fst) ++
              (allControlsChildren rest).map FieldControl.key).Nodup := by
            simpa [List.map_append, controlsMap_fst, List.append_assoc] using hkeys_split
          have htail := buildChildren_spec rest
            (entries ++ [(i, ValueNode.group (valueEntriesSpec cs'))])
            (m ++ (allControlsChildren cs').map (fun c => (c.key, c))) hnames' hlev.2 hkeys'
          have hrs := recordSet_fresh entries i (ValueNode.group (valueEntriesSpec cs')) hifresh
          simp only [buildChildren, buildChild, hsub, List.nil_append, hrs, htail]
          simp [valueEntriesSpec, valueTreeSpec, entryName, allControlsChildren, allControlsNode,
                List.map_append, List.append_assoc]
      | control c =>
          have hlev : levelNamesOkChildren rest = true := by
            simpa [levelNamesOkChildren, levelNamesOkNode, Bool.and_eq_true] using hlevels
          have hcfresh : c.key ∉ entries.map Prod.fst := by
            intro hmem
            have hdisj := (List.nodup_append.1 hnames).2.2
            exact hdisj hmem (by simp [entryName])
          have hkfresh : c.key ∉ m.map Prod.fst := by
            intro hmem
            have hdisj := (List.nodup_append.1 hkeys).2.2
            exact hdisj hmem (by simp [allControlsChildren, allControlsNode])
          have hnames' : ((entries ++
              [(c.key, ValueNode.control (initialValue c) (buildValidators c))]).map Prod.fst ++
              rest.map entryName).Nodup := by
            simpa [List.map_append, List.append_assoc, entryName] using hnames
          have hkeys' : (((m ++ [(c.key, c)]).map Prod.fst) ++
              (allControlsChildren rest).map FieldControl.key).Nodup := by
            simpa [List.map_append, List.append_assoc, allControlsChildren, allControlsNode]
              using hkeys
          have htail := buildChildren_spec rest
            (entries ++ [(c.key, ValueNode.control (initialValue c) (buildValidators c))])
            (m ++ [(c.key, c)]) hnames' hlev hkeys'
          have hrs := recordSet_fresh entries c.key
            (ValueNode.control (initialValue c) (buildValidators c)) hcfresh
          have hms := mapSet_fresh m c.key c hkfresh
          simp only [buildChildren, buildChild, hrs, hms, htail]
          simp [valueEntriesSpec, valueTreeSpec, entryName, allControlsChildren, allControlsNode,
                initialValue_eq_seedSpec, List.append_assoc]


theorem lookup_keyed (cs : List FieldControl) (h : (cs.map FieldControl.key).Nodup) :
    ∀ c ∈ cs, List.lookup c.key (cs.map (fun c => (c.key, c))) = some c := by
  induction cs with
  | nil => intro c hc ; simp at hc
  | cons c0 rest ih =>
      intro c hc
      simp only [List.map_cons, List.nodup_cons] at h
      rcases List.mem_cons.1 hc with hc1 | hc1
      · subst hc1
        simp [List.lookup]
      · have hne : (c.key == c0.key) = false := by
          simp only [beq_eq_false_iff_ne, ne_eq]
          intro he
          exact h.1 (he ▸ List.mem_map.2 ⟨c, hc1, rfl⟩)
        simp [List.lookup, hne]
        exact ih h.2 c hc1

/-- Claim C4 (amended): for a schema whose control keys are pairwise distinct
and whose entry names (group ids and control keys of the same parent) are
collision-free at every level, `build` produces exactly the spec's value
tree — groups nested under their id, control leaves under their key with the
seed value `defaultValue`/`false`-for-checkbox/`null` — and `controlsByKey`
holds exactly one entry per control key, mapping it to that control. -/
theorem build_spec (schema : FormSchema)
    (hkeys : ((allControls schema.root).map FieldControl.key).Nodup)
    (hlevels : levelNamesOkNode schema.root.toNode = true) :
    (build schema).form = valueTreeSpec schema.root.toNode ∧
    (build schema).controlsByKey = (allControls schema.root).map (fun c => (c.key, c)) ∧
    ∀ c ∈ allControls schema.root, List.lookup c.key (build schema).controlsByKey = some c := by
  have hlev' : (schema.root.children.map entryName).Nodup ∧
      levelNamesOkChildren schema.root.children = true := by
    simpa [FieldGroup.toNode, levelNamesOkNode, Bool.and_eq_true, decide_eq_true_eq] using hlevels
  have h := buildChildren_spec schema.root.children [] []
    (by simpa using hlev'.1) hlev'.2 (by simpa [allControls] using hkeys)
  refine ⟨?_, ?_, ?_⟩
  · show ValueNode.group (buildChildren schema.root.children [] []).1 = _
    rw [h]
    simp [valueTreeSpec, FieldGroup.toNode]
  · show (buildChildren schema.root.children [] []).2 = _
    rw [h]
    simp [allControls]
  · intro c hc
    show List.lookup c.key (buildChildren schema.root.children [] []).2 = some c
    rw [h]
    simp only [List.nil_append]
    exact lookup_keyed (allControls schema.root) hkeys c hc

/-- Claim C4, counterexample: in `clashSchema` the control keys are pairwise
distinct, yet the sibling group with id "k" is not nested under its id in the
built value tree — the record entry "k" was overwritten by the control leaf,
so the claimed tree shape fails with distinct control keys alone. -/
theorem build_clashing_entry_names :
    ((allControls clashSchema.root).map FieldControl.key).Nodup ∧
    formEntries (build clashSchema).form = [("k", ValueNode.control JsValue.null [])] ∧
    (("k", valueTreeSpec (FieldNode.group "k" "Sub" [])) ∈ formEntries (build clashSchema).form →
      False) := by
  refine ⟨by decide, rfl, ?_⟩
  intro h
  rw [show formEntries (build clashSchema).form =
        [("k", ValueNode.control JsValue.null [])] from rfl] at h
  have h2 := List.mem_singleton.1 h
  simp [valueTreeSpec, valueEntriesSpec] at h2

/-- Claim C1, witness: the amended theorem applied to an `equals` condition on
a key missing from an empty snapshot. -/
theorem evaluateCondition_unresolved_eval_witness :
    (readFormValue (JsValue.obj []) "a" = JsValue.undefined ∨
     opIncompatible VisibilityOperator.equals (readFormValue (JsValue.obj []) "a")
       (Prim.str "x") = true) ∧
    ((VisibilityOperator.equals = VisibilityOperator.notEquals →
        evaluateCondition ⟨"a", VisibilityOperator.equals, Prim.str "x"⟩ (JsValue.obj []) = true) ∧
     (VisibilityOperator.equals ≠ VisibilityOperator.notEquals →
        evaluateCondition ⟨"a", VisibilityOperator.equals, Prim.str "x"⟩ (JsValue.obj []) = false)) :=
  ⟨Or.inl rfl,
   evaluateCondition_unresolved_eval ⟨"a", VisibilityOperator.equals, Prim.str "x"⟩
     (JsValue.obj []) (Or.inl rfl)⟩

/-- Claim C3, witness: moving group "g1" into its own child "c1" leaves the
concrete schema untouched. -/
theorem moveNode_no_cycle_witness :
    (moveNode ⟨some ⟨"f", "F", "1.0.0", ⟨"root", "Root",
        [FieldNode.group "g1" "Sub" [FieldNode.control exampleControl]]⟩⟩, none, 0⟩
      "g1" "c1" 0 1).1.currentSchema =
    some ⟨"f", "F", "1.0.0", ⟨"root", "Root",
        [FieldNode.group "g1" "Sub" [FieldNode.control exampleControl]]⟩⟩ :=
  moveNode_no_cycle _ _ "g1" "c1" 0 1 rfl (by decide)
    (FieldNode.group "g1" "Sub" [FieldNode.control exampleControl]) rfl (by decide)

/-- Claim C4, witness: the amended theorem applied to a schema with distinct
keys and collision-free entry names. -/
theorem build_spec_witness :
    (build ⟨"f4", "F", "1.0.0", ⟨"root", "Root",
        [FieldNode.group "g1" "Sub" [FieldNode.control clashControl],
         FieldNode.control exampleControl]⟩⟩).form =
      valueTreeSpec (FieldGroup.toNode ⟨"root", "Root",
        [FieldNode.group "g1" "Sub" [FieldNode.control clashControl],
         FieldNode.control exampleControl]⟩) ∧
    (build ⟨"f4", "F", "1.0.0", ⟨"root", "Root",
        [FieldNode.group "g1" "Sub" [FieldNode.control clashControl],
         FieldNode.control exampleControl]⟩⟩).controlsByKey =
      (allControls ⟨"root", "Root",
        [FieldNode.group "g1" "Sub" [FieldNode.control clashControl],
         FieldNode.control exampleControl]⟩).map (fun c => (c.key, c)) :=
  ⟨(build_spec _ (by decide) (by decide)).1, (build_spec _ (by decide) (by decide)).2.1⟩

/-- Claim C5, witness: required text control, required checkbox, and a control
without the flag. -/
theorem buildValidators_required_checks_witness :
    (Validator.required ∈ buildValidators
        ⟨"c1", FieldControlType.text, "k", "K", none, none, some true, none, none, none, none⟩ ∧
     requiredAccepts JsValue.null = false) ∧
    (Validator.requiredTrue ∈ buildValidators
        ⟨"c2", FieldControlType.checkbox, "b", "B", none, none, some true, none, none, none, none⟩ ∧
     (requiredTrueAccepts (JsValue.bool true) = true ↔ JsValue.bool true = JsValue.bool true)) ∧
    (Validator.required ∉ buildValidators exampleControl ∧
     Validator.requiredTrue ∉ buildValidators exampleControl) :=
  ⟨⟨((buildValidators_required_checks
        ⟨"c1", FieldControlType.text, "k", "K", none, none, some true, none, none, none, none⟩).1
        rfl (by decide)).1,
    ((buildValidators_required_checks
        ⟨"c1", FieldControlType.text, "k", "K", none, none, some true, none, none, none, none⟩).1
        rfl (by decide)).2 JsValue.null rfl⟩,
   ⟨((buildValidators_required_checks
        ⟨"c2", FieldControlType.checkbox, "b", "B", none, none, some true, none, none, none, none⟩).2.1
        rfl rfl).1,
    ((buildValidators_required_checks
        ⟨"c2", FieldControlType.checkbox, "b", "B", none, none, some true, none, none, none, none⟩).2.1
        rfl rfl).2 (JsValue.bool true)⟩,
   (buildValidators_required_checks exampleControl).2.2 (by decide)⟩

/-- Claim C6, witness: a control without conditions follows its default; one
`any`-mode condition list is evaluated as a disjunction. -/
theorem isFieldVisible_spec_witness :
    (isFieldVisible exampleControl (JsValue.obj []) = true ↔
       exampleControl.visibleByDefault ≠ some false) ∧
    (isFieldVisible ⟨"c9", FieldControlType.text, "kk", "KK", none, none, none, none, none,
        some false, some ⟨VisibilityMode.any, [⟨"a", VisibilityOperator.equals, Prim.str "x"⟩]⟩⟩
        (JsValue.obj []) = true ↔
       ∃ c ∈ [(⟨"a", VisibilityOperator.equals, Prim.str "x"⟩ : VisibilityCondition)],
         evaluateCondition c (JsValue.obj []) = true) :=
  ⟨(isFieldVisible_spec exampleControl (JsValue.obj [])).1 (Or.inl rfl),
   ((isFieldVisible_spec ⟨"c9", FieldControlType.text, "kk", "KK", none, none, none, none, none,
        some false, some ⟨VisibilityMode.any, [⟨"a", VisibilityOperator.equals, Prim.str "x"⟩]⟩⟩
        (JsValue.obj [])).2
      ⟨VisibilityMode.any, [⟨"a", VisibilityOperator.equals, Prim.str "x"⟩]⟩ rfl
      (by decide)).2.2 rfl⟩

/-- Claim C7, witness: in a concrete tree the root id is in the visible-group
set and the subgroup's membership matches its children's visibility. -/
theorem computeVisibility_groups_witness :
    "root" ∈ (computeVisibility ⟨"root", "Root",
        [FieldNode.group "g1" "Sub" [FieldNode.control exampleControl]]⟩
        (JsValue.obj [])).visibleGroupIds ∧
    ("g1" ∈ (computeVisibility ⟨"root", "Root",
        [FieldNode.group "g1" "Sub" [FieldNode.control exampleControl]]⟩
        (JsValue.obj [])).visibleGroupIds ↔
      reportsVisibleAny (JsValue.obj []) [FieldNode.control exampleControl] = true) :=
  ⟨(computeVisibility_groups ⟨"root", "Root",
        [FieldNode.group "g1" "Sub" [FieldNode.control exampleControl]]⟩ (JsValue.obj [])).1,
   (computeVisibility_groups ⟨"root", "Root",
        [FieldNode.group "g1" "Sub" [FieldNode.control exampleControl]]⟩ (JsValue.obj [])).2
     (by decide) "g1" [FieldNode.control exampleControl]
     (by simp [groupNodesChildren, groupNodesNode])⟩

/-- Claim C8, witness: removing the selected control "c1" publishes the pruned
schema with the selection cleared; removing the root id publishes nothing. -/
theorem removeNode_spec_witness :
    removeNode ⟨some ⟨"f8", "F", "1.0.0", ⟨"root", "Root", [FieldNode.control exampleControl]⟩⟩,
        some "c1", 3⟩ "c1" 9 =
      (⟨some ⟨"f8", "F", "1.0.0", pruneG "c1" ⟨"root", "Root", [FieldNode.control exampleControl]⟩⟩,
        none, 9⟩, true) ∧
    removeNode ⟨some ⟨"f8", "F", "1.0.0", ⟨"root", "Root", [FieldNode.control exampleControl]⟩⟩,
        some "c1", 3⟩ "root" 9 =
      (⟨some ⟨"f8", "F", "1.0.0", ⟨"root", "Root", [FieldNode.control exampleControl]⟩⟩,
        some "c1", 3⟩, false) ∧
    "c1" ∉ allIdsG (removeNodeFromGroup ⟨"root", "Root", [FieldNode.control exampleControl]⟩
        "c1").group :=
  ⟨(removeNode_spec _ ⟨"f8", "F", "1.0.0", ⟨"root", "Root", [FieldNode.control exampleControl]⟩⟩
      "c1" 9 rfl).1 (by decide),
   (removeNode_spec ⟨some ⟨"f8", "F", "1.0.0", ⟨"root", "Root",
        [FieldNode.control exampleControl]⟩⟩, some "c1", 3⟩
      ⟨"f8", "F", "1.0.0", ⟨"root", "Root", [FieldNode.control exampleControl]⟩⟩
      "root" 9 rfl).2.2 (by decide) rfl,
   (removeNode_spec ⟨some ⟨"f8", "F", "1.0.0", ⟨"root", "Root",
        [FieldNode.control exampleControl]⟩⟩, some "c1", 3⟩
      ⟨"f8", "F", "1.0.0", ⟨"root", "Root", [FieldNode.control exampleControl]⟩⟩
      "c1" 9 rfl).2.1 (FieldNode.control exampleControl) rfl (by decide) "c1" (by decide)⟩

/-- Claim C9, counterexample: a mutating `addNode` invoked at the very clock
value already stored publishes a new state whose `lastUpdated` equals — does
not exceed — the replaced state's marker. -/
theorem lastUpdated_not_strictly_increasing :
    (addNode exampleState "root" (FieldNode.control exampleControl) none 5).2 = true ∧
    (addNode exampleState "root" (FieldNode.control exampleControl) none 5).1.lastUpdated =
      exampleState.lastUpdated :=
  ⟨rfl, rfl⟩

/-- Claim C9, witness: with the clock strictly ahead of the stored marker, a
publishing `addNode` strictly increases `lastUpdated`. -/
theorem lastUpdated_monotone_of_clock_advance_witness :
    (addNode exampleState "root" (FieldNode.control exampleControl) none 6).1.lastUpdated >
      exampleState.lastUpdated :=
  ((lastUpdated_monotone_of_clock_advance exampleState 6 (by decide)).2.2.1 "root"
      (FieldNode.control exampleControl) none).1 rfl

/-- Claim C10, witness: concrete failing commands — `addNode` to a missing
group and `moveNode` of a missing node republish with a fresh marker, while
`removeNode` and `selectNode` of a missing id publish nothing. -/
theorem failed_commands_publish_witness :
    addNode exampleState "nope" (FieldNode.control exampleControl) none 7 =
      ({ exampleState with lastUpdated := 7 }, true) ∧
    moveNode exampleState "ghost" "root" 0 7 = ({ exampleState with lastUpdated := 7 }, true) ∧
    removeNode exampleState "ghost" 7 = (exampleState, false) ∧
    selectNode exampleState (some "ghost") = (exampleState, false) :=
  ⟨(failed_commands_publish exampleState exampleSchema 7 rfl).1 "nope"
      (FieldNode.control exampleControl) none (by decide),
   (failed_commands_publish exampleState exampleSchema 7 rfl).2.1 "ghost" "root" 0 (Or.inl rfl),
   (failed_commands_publish exampleState exampleSchema 7 rfl).2.2.1 "ghost" (by decide),
   (failed_commands_publish exampleState exampleSchema 7 rfl).2.2.2 "ghost" (by decide)⟩

end DynamicFormBuilder
